import Mathlib

/-!
Shallow embedding of the ZMK speed-curve input processor: the
implementation file `src/speed_curve.c` together with the header that
declares `struct zip_speed_curve_config` and `struct zip_speed_curve_data`.

Modelling conventions:
* machine integers are `Int` (signed) or `Nat` (unsigned fields);
  C integer division on signed operands truncates toward zero, which is
  `Int.tdiv`;
* the monotonic millisecond clock `k_uptime_get()` is an explicit `now`
  argument: one invocation of the event handler happens at a single
  instant, so both clock reads inside one invocation return that value;
* the C arrays `codes` / `curve_points` (pointer plus length) are Lean
  lists, with `getD _ 0` for indexing.
-/

/-- Input event as used by the driver (`struct input_event`): an event
type, a code and a signed relative value. -/
structure input_event where
  type : Nat
  code : Nat
  value : Int
deriving DecidableEq

/-- Configuration (`struct zip_speed_curve_config`).  `curve_points` is
the flattened `[time0, speed0, time1, speed1, ...]` array; the separate
`codes_len` / `curve_points_len` fields of the C struct are the list
lengths.  `trigger_period_ms` is a `uint16_t`, hence a `Nat`. -/
structure zip_speed_curve_config where
  type : Nat
  codes : List Nat
  curve_points : List Int
  trigger_period_ms : Nat
  track_remainders : Bool
deriving DecidableEq

/-- Runtime data.  The implementation reads and writes `is_active`,
`start_time`, `last_x_direction` and `last_y_direction`.  The header's
`struct zip_speed_curve_data` additionally declares per-axis sub-pixel
remainder fields (`float x_remainder, y_remainder`) that the
implementation never accesses; they are included (as exact rationals,
which is harmless since no code touches them) so that claims about them
can be stated. -/
structure zip_speed_curve_data where
  is_active : Bool
  start_time : Int
  last_x_direction : Int
  last_y_direction : Int
  x_remainder : ℚ
  y_remainder : ℚ
deriving DecidableEq

/-- Linear scan of the configured code array (`code_matches`). -/
def code_matches (cfg : zip_speed_curve_config) (code : Nat) : Bool :=
  cfg.codes.contains code

/-- Entry `i` of the flattened curve-point array (`cfg->curve_points[i]`). -/
def cp (cfg : zip_speed_curve_config) (i : Nat) : Int :=
  cfg.curve_points.getD i 0

/-- Number of `(time, speed)` pairs: `curve_points_len / 2`. -/
def num_points (cfg : zip_speed_curve_config) : Nat :=
  cfg.curve_points.length / 2

/-- The interpolation expression of `calculate_speed` for segment `i`:
`s0 + (s1 - s0) * (elapsed_ms - t0) / (t1 - t0)` with C (truncating)
division, where `t0 = curve_points[2i]`, `s0 = curve_points[2i+1]`,
`t1 = curve_points[2i+2]`, `s1 = curve_points[2i+3]`. -/
def segment_value (cfg : zip_speed_curve_config) (i : Nat) (elapsed_ms : Int) : Int :=
  cp cfg (2 * i + 1) +
    ((cp cfg (2 * i + 3) - cp cfg (2 * i + 1)) * (elapsed_ms - cp cfg (2 * i))).tdiv
      (cp cfg (2 * i + 2) - cp cfg (2 * i))

/-- The segment-search loop of `calculate_speed`
(`for (i = 0; i < num_points - 1; i++)`), searching from index `i` with
`fuel = (num_points - 1) - i` iterations remaining; `none` models the
loop falling through to the trailing fallback return. -/
def seg_loop (cfg : zip_speed_curve_config) (elapsed_ms : Int) : Nat → Nat → Option Int
  | _, 0 => none
  | i, fuel + 1 =>
    if cp cfg (2 * i) ≤ elapsed_ms ∧ elapsed_ms ≤ cp cfg (2 * i + 2) then
      some (segment_value cfg i elapsed_ms)
    else
      seg_loop cfg elapsed_ms (i + 1) fuel

/-- The speed-lookup function `calculate_speed`: clamp below the first
point, clamp above the last point, otherwise search for an enclosing
segment and interpolate, falling back to the last speed if the loop
finds none. -/
def calculate_speed (cfg : zip_speed_curve_config) (elapsed_ms : Int) : Int :=
  if num_points cfg = 0 then 0
  else if elapsed_ms ≤ cp cfg 0 then cp cfg 1
  else if cp cfg (2 * (num_points cfg - 1)) ≤ elapsed_ms then
    cp cfg (2 * (num_points cfg - 1) + 1)
  else
    match seg_loop cfg elapsed_ms 0 (num_points cfg - 1) with
    | some speed => speed
    | none => cp cfg (2 * (num_points cfg - 1) + 1)

/-- Direction of a raw value: `(value > 0) ? 1 : (value < 0) ? -1 : 0`. -/
def current_direction_of (value : Int) : Int :=
  if 0 < value then 1 else if value < 0 then -1 else 0

/-- The axis an event's code selects: `is_x_axis = (event->code == 0)`. -/
def is_x_axis (event : input_event) : Bool :=
  event.code == 0

/-- Read the last-direction field the handler's `last_direction` pointer
refers to. -/
def get_last_direction (d : zip_speed_curve_data) (is_x : Bool) : Int :=
  if is_x then d.last_x_direction else d.last_y_direction

/-- Write through the handler's `last_direction` pointer. -/
def set_last_direction (d : zip_speed_curve_data) (is_x : Bool) (dir : Int) :
    zip_speed_curve_data :=
  if is_x then { d with last_x_direction := dir } else { d with last_y_direction := dir }

/-- State update for a zero-value event: clear the axis's last
direction, then clear `is_active` only when both axes' last directions
are now zero. -/
def stop_step (d : zip_speed_curve_data) (is_x : Bool) : zip_speed_curve_data :=
  let d1 := set_last_direction d is_x 0
  if d1.last_x_direction = 0 ∧ d1.last_y_direction = 0 then { d1 with is_active := false }
  else d1

/-- State update for a nonzero-value event: reset `is_active` on a
direction reversal, record the new direction, and (re)start timing when
not active, recording `start_time = now`. -/
def move_step_data (d : zip_speed_curve_data) (is_x : Bool) (current_direction now : Int) :
    zip_speed_curve_data :=
  let d1 :=
    if get_last_direction d is_x ≠ 0 ∧ get_last_direction d is_x ≠ current_direction then
      { d with is_active := false }
    else d
  let d2 := set_last_direction d1 is_x current_direction
  if ¬ d2.is_active then { d2 with start_time := now, is_active := true } else d2

/-- Speed-to-movement conversion: `movement = speed * trigger_period_ms
/ 1000`, forced to `1` when it is `0` while the speed is positive. -/
def movement_of (cfg : zip_speed_curve_config) (speed_px_per_sec : Int) : Int :=
  let movement := (speed_px_per_sec * (cfg.trigger_period_ms : Int)).tdiv 1000
  if movement = 0 ∧ 0 < speed_px_per_sec then 1 else movement

/-- The event handler `zip_speed_curve_handle_event`, returning the C
return code (always `0`), the updated runtime data, and the (possibly
rewritten) event. -/
def zip_speed_curve_handle_event (cfg : zip_speed_curve_config) (d : zip_speed_curve_data)
    (event : input_event) (now : Int) : Int × zip_speed_curve_data × input_event :=
  if event.type ≠ cfg.type ∨ ¬ code_matches cfg event.code then (0, d, event)
  else if event.value = 0 then (0, stop_step d (is_x_axis event), event)
  else
    let current_direction := current_direction_of event.value
    let d3 := move_step_data d (is_x_axis event) current_direction now
    let elapsed_ms := now - d3.start_time
    let speed_px_per_sec := calculate_speed cfg elapsed_ms
    let movement := movement_of cfg speed_px_per_sec
    (0, d3, { event with value := current_direction * movement })

/-- The driver init function `zip_speed_curve_init`: resets the runtime
state and unconditionally returns `0`; the configuration (reachable
through the device pointer) is never inspected. -/
def zip_speed_curve_init (_cfg : zip_speed_curve_config) (d : zip_speed_curve_data) :
    Int × zip_speed_curve_data :=
  (0,
    { d with
      is_active := false
      start_time := 0
      last_x_direction := 0
      last_y_direction := 0 })

/-- The example curve used throughout the spec:
`[(0,50),(300,200),(1000,800)]`, matching relative events of type 2 on
codes 0 (X) and 1 (Y), with a 16 ms trigger period. -/
def example_cfg : zip_speed_curve_config :=
  { type := 2
    codes := [0, 1]
    curve_points := [0, 50, 300, 200, 1000, 800]
    trigger_period_ms := 16
    track_remainders := false }

example : calculate_speed example_cfg 0 = 50 := by decide
example : calculate_speed example_cfg 150 = 125 := by decide
example : calculate_speed example_cfg 300 = 200 := by decide
example : calculate_speed example_cfg 1000 = 800 := by decide
example : calculate_speed example_cfg 650 = 500 := by decide

/-- Runtime data at construction time: the zero-initialised static
struct, as also (re)established by `zip_speed_curve_init`. -/
def initial_data : zip_speed_curve_data :=
  { is_active := false
    start_time := 0
    last_x_direction := 0
    last_y_direction := 0
    x_remainder := 0
    y_remainder := 0 }

/-- The CurveTable invariant: the times of consecutive curve points are
strictly increasing. -/
def times_strictly_increasing (cfg : zip_speed_curve_config) : Prop :=
  ∀ i : Fin (num_points cfg - 1), cp cfg (2 * i.val) < cp cfg (2 * i.val + 2)

/-- Curve speeds are non-decreasing along the table. -/
def speeds_nondecreasing (cfg : zip_speed_curve_config) : Prop :=
  ∀ i : Fin (num_points cfg - 1), cp cfg (2 * i.val + 1) ≤ cp cfg (2 * i.val + 3)

instance (cfg : zip_speed_curve_config) : Decidable (times_strictly_increasing cfg) :=
  inferInstanceAs
    (Decidable (∀ i : Fin (num_points cfg - 1), cp cfg (2 * i.val) < cp cfg (2 * i.val + 2)))

instance (cfg : zip_speed_curve_config) : Decidable (speeds_nondecreasing cfg) :=
  inferInstanceAs
    (Decidable (∀ i : Fin (num_points cfg - 1), cp cfg (2 * i.val + 1) ≤ cp cfg (2 * i.val + 3)))

/-- Strictly increasing consecutive times give strictly increasing times
across any pair of indices. -/
lemma cp_time_lt (cfg : zip_speed_curve_config) (hinc : times_strictly_increasing cfg) :
    ∀ {i j : Nat}, i < j → j < num_points cfg → cp cfg (2 * i) < cp cfg (2 * j) := by
  intro i j
  induction j with
  | zero => intro hij _; omega
  | succ k ih =>
    intro hij hj
    have hk1 : k < num_points cfg - 1 := by omega
    have hstep : cp cfg (2 * k) < cp cfg (2 * (k + 1)) := by
      have h := hinc ⟨k, hk1⟩
      have h2 : 2 * (k + 1) = 2 * k + 2 := by ring
      rw [h2]
      exact h
    rcases Nat.lt_succ_iff_lt_or_eq.mp hij with h | h
    · exact lt_trans (ih h (by omega)) hstep
    · rw [h]; exact hstep

/-- Non-decreasing consecutive speeds give non-decreasing speeds across
any pair of indices. -/
lemma cp_speed_le (cfg : zip_speed_curve_config) (hmono : speeds_nondecreasing cfg) :
    ∀ {i j : Nat}, i ≤ j → j < num_points cfg → cp cfg (2 * i + 1) ≤ cp cfg (2 * j + 1) := by
  intro i j
  induction j with
  | zero =>
    intro hij _
    have h0 : i = 0 := Nat.le_zero.mp hij
    rw [h0]
  | succ k ih =>
    intro hij hj
    have hk1 : k < num_points cfg - 1 := by omega
    have hstep : cp cfg (2 * k + 1) ≤ cp cfg (2 * (k + 1) + 1) := by
      have h := hmono ⟨k, hk1⟩
      have h2 : 2 * (k + 1) + 1 = 2 * k + 3 := by ring
      rw [h2]
      exact h
    rcases Nat.lt_succ_iff_lt_or_eq.mp (Nat.lt_succ_of_le hij) with h | h
    · exact le_trans (ih (by omega) (by omega)) hstep
    · subst h; exact le_refl _

/-- Clamping and single-point behaviour of `calculate_speed`: at or
below the first point's time the first speed is returned, at or above
the last point's time the last speed, and a single-point table returns
its speed everywhere. -/
theorem calculate_speed_clamping_spec (cfg : zip_speed_curve_config)
    (hn : 1 ≤ num_points cfg) (hinc : times_strictly_increasing cfg) :
    (∀ e : Int, e ≤ cp cfg 0 → calculate_speed cfg e = cp cfg 1) ∧
    (∀ e : Int, cp cfg (2 * (num_points cfg - 1)) ≤ e →
      calculate_speed cfg e = cp cfg (2 * (num_points cfg - 1) + 1)) ∧
    (num_points cfg = 1 → ∀ e : Int, calculate_speed cfg e = cp cfg 1) := by
  have hne : ¬ num_points cfg = 0 := by omega
  refine ⟨?_, ?_, ?_⟩
  · intro e he
    simp [calculate_speed, hne, he]
  · intro e he
    by_cases hfirst : e ≤ cp cfg 0
    · rcases Nat.lt_or_ge 1 (num_points cfg) with h2 | h2
      · -- at least two points: the first time is strictly below the last,
        -- contradicting `last ≤ e ≤ first`
        have hlt : cp cfg (2 * 0) < cp cfg (2 * (num_points cfg - 1)) :=
          cp_time_lt cfg hinc (by omega) (by omega)
        rw [Nat.mul_zero] at hlt
        exact absurd hfirst (not_le.mpr (lt_of_lt_of_le hlt he))
      · have hone : num_points cfg = 1 := by omega
        simp [calculate_speed, hne, hfirst, hone]
    · simp [calculate_speed, hne, hfirst, he]
  · intro hone e
    by_cases hfirst : e ≤ cp cfg 0
    · simp [calculate_speed, hne, hfirst]
    · simp [calculate_speed, hne, hfirst, hone, seg_loop]

/-- Witness: the example curve clamps below its first point, above its
last point, and the single-point table `[(100, 42)]` is constant. -/
theorem calculate_speed_clamping_spec_witness :
    calculate_speed example_cfg (-7) = 50 ∧ calculate_speed example_cfg 5000 = 800 ∧
      calculate_speed
        { example_cfg with curve_points := [100, 42] } 999999 = 42 := by
  refine ⟨?_, ?_, ?_⟩
  · exact (calculate_speed_clamping_spec example_cfg (by decide) (by decide)).1 (-7) (by decide)
  · exact (calculate_speed_clamping_spec example_cfg (by decide) (by decide)).2.1 5000 (by decide)
  · exact (calculate_speed_clamping_spec { example_cfg with curve_points := [100, 42] }
      (by decide) (by decide)).2.2 (by decide) 999999

/-- A positive speed always converts to a movement of at least one
pixel: the raw quotient is non-negative (the trigger period is
unsigned), and the handler forces a zero movement to `1` when the speed
is positive. -/
lemma one_le_movement_of (cfg : zip_speed_curve_config) {s : Int} (hs : 0 < s) :
    1 ≤ movement_of cfg s := by
  unfold movement_of
  have hm0 : 0 ≤ (s * (cfg.trigger_period_ms : Int)).tdiv 1000 :=
    Int.tdiv_nonneg (mul_nonneg (le_of_lt hs) (Int.natCast_nonneg _)) (by norm_num)
  by_cases h : (s * (cfg.trigger_period_ms : Int)).tdiv 1000 = 0
  · simp [h, hs]
  · simp [h]
    omega

/-- Nonzero raw values have direction `1` or `-1`. -/
lemma current_direction_of_ne_zero {v : Int} (hv : v ≠ 0) :
    current_direction_of v = 1 ∨ current_direction_of v = -1 := by
  unfold current_direction_of
  rcases lt_trichotomy v 0 with h | h | h
  · simp [not_lt.mpr (le_of_lt h), h]
  · exact absurd h hv
  · simp [h]

/-- Minimum-motion guarantee: a matched nonzero-value event whose
interpolated speed is strictly positive is always emitted with
`|delta| ≥ 1`; the handler never silently drops motion. -/
theorem min_motion_guarantee (cfg : zip_speed_curve_config) (d : zip_speed_curve_data)
    (ev : input_event) (now : Int)
    (htype : ev.type = cfg.type) (hcode : code_matches cfg ev.code = true)
    (hv : ev.value ≠ 0)
    (hspeed : 0 < calculate_speed cfg
      (now - (move_step_data d (is_x_axis ev) (current_direction_of ev.value) now).start_time)) :
    1 ≤ |(zip_speed_curve_handle_event cfg d ev now).2.2.value| := by
  unfold zip_speed_curve_handle_event
  simp [htype, hcode, hv]
  rw [abs_mul]
  have hmv : 1 ≤ movement_of cfg (calculate_speed cfg
      (now - (move_step_data d (is_x_axis ev) (current_direction_of ev.value) now).start_time)) :=
    one_le_movement_of cfg hspeed
  rcases current_direction_of_ne_zero hv with h | h <;> rw [h] at hmv ⊢ <;> simp <;>
    exact le_trans hmv (le_abs_self _)

/-- Witness: with the example curve, a first X event of raw value `5`
at time `0` has speed `50 > 0` and is emitted with `|delta| = 1`. -/
theorem min_motion_guarantee_witness :
    0 < calculate_speed example_cfg
        (0 - (move_step_data initial_data (is_x_axis ⟨2, 0, 5⟩)
          (current_direction_of 5) 0).start_time) ∧
      1 ≤ |(zip_speed_curve_handle_event example_cfg initial_data ⟨2, 0, 5⟩ 0).2.2.value| :=
  ⟨by decide,
    min_motion_guarantee example_cfg initial_data ⟨2, 0, 5⟩ 0 rfl (by decide) (by decide)
      (by decide)⟩

/-- Events whose type or code is not matched by the configuration are
passed through untouched: the return code is `0`, the runtime data is
unchanged in every field, and the event (in particular its value) is
unmodified. -/
theorem filter_passthrough_no_state_change (cfg : zip_speed_curve_config)
    (d : zip_speed_curve_data) (ev : input_event) (now : Int)
    (h : ev.type ≠ cfg.type ∨ code_matches cfg ev.code = false) :
    zip_speed_curve_handle_event cfg d ev now = (0, d, ev) := by
  unfold zip_speed_curve_handle_event
  rcases h with h | h
  · simp [h]
  · simp [h]

/-- Witness: an event of unmatched type `3` is passed through with no
state change. -/
theorem filter_passthrough_witness :
    ((⟨3, 0, 5⟩ : input_event).type ≠ example_cfg.type ∨
        code_matches example_cfg (⟨3, 0, 5⟩ : input_event).code = false) ∧
      zip_speed_curve_handle_event example_cfg initial_data ⟨3, 0, 5⟩ 77 =
        (0, initial_data, ⟨3, 0, 5⟩) :=
  ⟨Or.inl (by decide),
    filter_passthrough_no_state_change example_cfg initial_data ⟨3, 0, 5⟩ 77 (Or.inl (by decide))⟩

/-- A configuration that is malformed in all three ways named by the
spec: empty code set, non-monotonic curve points, and a zero trigger
period. -/
def invalid_cfg : zip_speed_curve_config :=
  { type := 2
    codes := []
    curve_points := [300, 200, 0, 50]
    trigger_period_ms := 0
    track_remainders := false }

/-- Counterexample to the construction-validation claim: on a
configuration with an empty code set, non-monotonic curve points and a
zero trigger period, `zip_speed_curve_init` still returns `0`
(success), so construction does not fail. -/
theorem init_accepts_invalid_config_cex :
    invalid_cfg.codes = [] ∧ ¬ times_strictly_increasing invalid_cfg ∧
      invalid_cfg.trigger_period_ms = 0 ∧
      ¬ (zip_speed_curve_init invalid_cfg initial_data).1 ≠ 0 := by decide

/-- What the code actually does at construction: `zip_speed_curve_init`
performs no validation of the configuration whatsoever; for every
configuration and prior data it returns `0` (success) and resets the
runtime state. -/
theorem init_always_succeeds (cfg : zip_speed_curve_config) (d : zip_speed_curve_data) :
    zip_speed_curve_init cfg d =
      (0,
        { d with
          is_active := false
          start_time := 0
          last_x_direction := 0
          last_y_direction := 0 }) := rfl

/-- A steeper curve (speeds 1000..4000) whose per-event movements
differ visibly between elapsed 0 and elapsed 100. -/
def shared_clock_cfg : zip_speed_curve_config :=
  { type := 2
    codes := [0, 1]
    curve_points := [0, 1000, 300, 4000]
    trigger_period_ms := 16
    track_remainders := false }

/-- Counterexample to per-axis stop/reset: X starts moving at t=0 and
stays active; Y starts at t=0, emits a zero-value (stop) event at t=50,
and moves again at t=100.  Because the activity clock is shared and X's
last direction is nonzero, the zero-value event does not reset timing:
the next Y event is computed at elapsed 100 ms and emits 32, not the
first-point value 16 the claim requires. -/
theorem stop_reset_per_axis_cex :
    ((zip_speed_curve_handle_event shared_clock_cfg
        ((zip_speed_curve_handle_event shared_clock_cfg
          ((zip_speed_curve_handle_event shared_clock_cfg
            ((zip_speed_curve_handle_event shared_clock_cfg initial_data
              ⟨2, 0, 5⟩ 0).2.1)
            ⟨2, 1, 5⟩ 0).2.1)
          ⟨2, 1, 0⟩ 50).2.1)
        ⟨2, 1, 5⟩ 100).2.2.value = 32) ∧
      current_direction_of 5 * movement_of shared_clock_cfg (calculate_speed shared_clock_cfg 0) =
        16 := by
  decide

/-- Amended stop/reset behaviour: after a zero-value event on an axis,
the next nonzero event on that axis is computed at `elapsed_ms = 0`
(and so with the speed at elapsed 0) provided the OTHER axis's last
direction was also zero when the stop was processed — only then does
the shared activity clock reset. -/
theorem stop_then_restart_when_both_idle (cfg : zip_speed_curve_config)
    (d : zip_speed_curve_data) (c : Nat) (v : Int) (t1 t2 : Int)
    (hcode : code_matches cfg c = true) (hv : v ≠ 0)
    (hother : get_last_direction d (!(c == 0)) = 0) :
    ((zip_speed_curve_handle_event cfg
        (zip_speed_curve_handle_event cfg d ⟨cfg.type, c, 0⟩ t1).2.1
        ⟨cfg.type, c, v⟩ t2).2.1.start_time = t2) ∧
      ((zip_speed_curve_handle_event cfg
          (zip_speed_curve_handle_event cfg d ⟨cfg.type, c, 0⟩ t1).2.1
          ⟨cfg.type, c, v⟩ t2).2.2.value =
        current_direction_of v * movement_of cfg (calculate_speed cfg 0)) := by
  cases hb : (c == 0) <;>
  · rw [hb] at hother
    simp [get_last_direction] at hother
    simp [zip_speed_curve_handle_event, is_x_axis, hb, hcode, hv, stop_step, set_last_direction,
      move_step_data, get_last_direction, hother]

/-- Witness: from the all-idle initial state, an X stop at t=10 followed
by an X move at t=99 restarts timing at 99 and is computed at
elapsed 0. -/
theorem stop_then_restart_when_both_idle_witness :
    ((zip_speed_curve_handle_event example_cfg
        (zip_speed_curve_handle_event example_cfg initial_data
          ⟨example_cfg.type, 0, 0⟩ 10).2.1
        ⟨example_cfg.type, 0, 5⟩ 99).2.1.start_time = 99) ∧
      ((zip_speed_curve_handle_event example_cfg
          (zip_speed_curve_handle_event example_cfg initial_data
            ⟨example_cfg.type, 0, 0⟩ 10).2.1
          ⟨example_cfg.type, 0, 5⟩ 99).2.2.value =
        current_direction_of 5 * movement_of example_cfg (calculate_speed example_cfg 0)) :=
  stop_then_restart_when_both_idle example_cfg initial_data 0 5 10 99 (by decide) (by decide)
    (by decide)

/-- Direction reversal resets timing: a matched nonzero event whose
direction differs from the axis's nonzero last direction clears
`is_active` and immediately re-arms in the same call, so the reversing
event itself records `start_time = now`, is computed at `elapsed_ms = 0`
and emits the movement derived from the speed at elapsed 0. -/
theorem direction_reversal_resets_timing (cfg : zip_speed_curve_config)
    (d : zip_speed_curve_data) (ev : input_event) (now : Int)
    (htype : ev.type = cfg.type) (hcode : code_matches cfg ev.code = true)
    (hv : ev.value ≠ 0)
    (hrev : get_last_direction d (is_x_axis ev) ≠ 0 ∧
      get_last_direction d (is_x_axis ev) ≠ current_direction_of ev.value) :
    (zip_speed_curve_handle_event cfg d ev now).2.1.start_time = now ∧
      (zip_speed_curve_handle_event cfg d ev now).2.2.value =
        current_direction_of ev.value * movement_of cfg (calculate_speed cfg 0) := by
  cases hx : is_x_axis ev <;>
  · rw [hx] at hrev
    simp [get_last_direction] at hrev
    simp [zip_speed_curve_handle_event, move_step_data, set_last_direction, get_last_direction,
      hx, htype, hcode, hv, hrev]

/-- Witness for the reversal claim's `+5, +5, -5` scenario on a single
axis: after two positive X events at t=0 and t=100, the reversing `-5`
event at t=200 restarts timing at 200 and is computed at elapsed 0. -/
theorem direction_reversal_witness :
    ((zip_speed_curve_handle_event example_cfg
        ((zip_speed_curve_handle_event example_cfg
          ((zip_speed_curve_handle_event example_cfg initial_data
            ⟨example_cfg.type, 0, 5⟩ 0).2.1)
          ⟨example_cfg.type, 0, 5⟩ 100).2.1)
        ⟨example_cfg.type, 0, -5⟩ 200).2.1.start_time = 200) ∧
      ((zip_speed_curve_handle_event example_cfg
          ((zip_speed_curve_handle_event example_cfg
            ((zip_speed_curve_handle_event example_cfg initial_data
              ⟨example_cfg.type, 0, 5⟩ 0).2.1)
            ⟨example_cfg.type, 0, 5⟩ 100).2.1)
          ⟨example_cfg.type, 0, -5⟩ 200).2.2.value =
        current_direction_of (-5) * movement_of example_cfg (calculate_speed example_cfg 0)) :=
  direction_reversal_resets_timing example_cfg
    ((zip_speed_curve_handle_event example_cfg
      ((zip_speed_curve_handle_event example_cfg initial_data
        ⟨example_cfg.type, 0, 5⟩ 0).2.1)
      ⟨example_cfg.type, 0, 5⟩ 100).2.1)
    ⟨example_cfg.type, 0, -5⟩ 200 rfl (by decide) (by decide) (by decide)

/-- Modelled from the spec: the remainder-tracking delta computation of
the speed-to-delta step, which is missing from `speed_curve.c` (the
`track_remainders` config flag and the header's `x_remainder` /
`y_remainder` fields are never read by the implementation):
`raw_delta = speed * trigger_period_ms / 1000` exactly, `total =
raw_delta + remainder`, emit `delta = truncate(total)` (toward zero),
and carry `remainder = total - delta`.  All quantities are represented
exactly in units of 1/1000 pixel: `raw_delta` is the integer
`speed * trigger_period_ms` thousandths, the carried remainder is an
integer number of thousandths, and truncation toward zero is
`Int.tdiv` by 1000, so this is the spec's real-valued computation with
no rounding. -/
def spec_remainder_step (cfg : zip_speed_curve_config) (speed : Int) (rem_thousandths : Int) :
    Int × Int :=
  let total_thousandths := speed * (cfg.trigger_period_ms : Int) + rem_thousandths
  let delta := total_thousandths.tdiv 1000
  (delta, total_thousandths - 1000 * delta)

/-- Constant-speed curve (100 px/s) with remainder tracking requested:
`raw_delta = 1.6` per 16 ms event. -/
def remainder_cfg : zip_speed_curve_config :=
  { type := 2
    codes := [0, 1]
    curve_points := [0, 100, 1000, 100]
    trigger_period_ms := 16
    track_remainders := true }

/-- Evaluation of the code at the failing input for remainder tracking:
with `track_remainders = true` and constant speed 100 (raw delta 1.6),
two consecutive X events at t=0 and t=16 are BOTH emitted as 1 and the
stored X remainder stays 0, whereas the spec's remainder-tracking step
emits 1 then 2 (carrying remainder 0.6 = 600 thousandths).  The
implementation ignores `track_remainders` entirely. -/
theorem track_remainders_unimplemented :
    remainder_cfg.track_remainders = true ∧
      ((zip_speed_curve_handle_event remainder_cfg initial_data ⟨2, 0, 1⟩ 0).2.2.value = 1) ∧
      ((zip_speed_curve_handle_event remainder_cfg
          (zip_speed_curve_handle_event remainder_cfg initial_data ⟨2, 0, 1⟩ 0).2.1
          ⟨2, 0, 1⟩ 16).2.2.value = 1) ∧
      ((zip_speed_curve_handle_event remainder_cfg
          (zip_speed_curve_handle_event remainder_cfg initial_data ⟨2, 0, 1⟩ 0).2.1
          ⟨2, 0, 1⟩ 16).2.1.x_remainder = 0) ∧
      (spec_remainder_step remainder_cfg 100 0).1 = 1 ∧
      (spec_remainder_step remainder_cfg 100 0).2 = 600 ∧
      (spec_remainder_step remainder_cfg 100 (spec_remainder_step remainder_cfg 100 0).2).1 =
        2 := by
  decide

/-- Elapsed time `e` lies inside segment `j` of the curve (the loop's
`elapsed_ms >= t0 && elapsed_ms <= t1` test). -/
def in_segment (cfg : zip_speed_curve_config) (e : Int) (j : Nat) : Prop :=
  cp cfg (2 * j) ≤ e ∧ e ≤ cp cfg (2 * j + 2)

instance (cfg : zip_speed_curve_config) (e : Int) (j : Nat) : Decidable (in_segment cfg e j) :=
  inferInstanceAs (Decidable (_ ∧ _))

/-- The segment-search loop always finds a segment when entered with the
invariant `t_i ≤ e` and `e` strictly below the last point's time: if the
test at index `i` fails while `t_i ≤ e`, then `t_{i+1} < e`, so the
invariant carries to `i + 1`, and at the final index it would contradict
`e < t_last`. -/
lemma seg_loop_isSome (cfg : zip_speed_curve_config) (e : Int) :
    ∀ fuel i, i + fuel = num_points cfg - 1 → cp cfg (2 * i) ≤ e →
      e < cp cfg (2 * (num_points cfg - 1)) → (seg_loop cfg e i fuel).isSome = true := by
  intro fuel
  induction fuel with
  | zero =>
    intro i hif hle hlt
    have hi : i = num_points cfg - 1 := by omega
    rw [hi] at hle
    omega
  | succ f ih =>
    intro i hif hle hlt
    simp only [seg_loop]
    by_cases hc : cp cfg (2 * i) ≤ e ∧ e ≤ cp cfg (2 * i + 2)
    · simp [hc]
    · rw [if_neg hc]
      apply ih (i + 1) (by omega) ?_ hlt
      have h2 : 2 * (i + 1) = 2 * i + 2 := by ring
      rw [h2]
      rcases not_and_or.mp hc with h | h
      · exact absurd hle h
      · exact le_of_lt (not_le.mp h)

/-- Characterisation of a successful loop search: the returned value is
the interpolation of the FIRST segment (from the start index on) that
contains `e`. -/
lemma seg_loop_first_match (cfg : zip_speed_curve_config) (e : Int) :
    ∀ fuel i v, seg_loop cfg e i fuel = some v →
      ∃ j, i ≤ j ∧ j < i + fuel ∧ in_segment cfg e j ∧
        (∀ k, i ≤ k → k < j → ¬ in_segment cfg e k) ∧ v = segment_value cfg j e := by
  intro fuel
  induction fuel with
  | zero => intro i v h; simp [seg_loop] at h
  | succ f ih =>
    intro i v h
    simp only [seg_loop] at h
    by_cases hc : cp cfg (2 * i) ≤ e ∧ e ≤ cp cfg (2 * i + 2)
    · rw [if_pos hc] at h
      refine ⟨i, le_refl i, by omega, hc, ?_, (Option.some.inj h).symm⟩
      intro k hk1 hk2
      omega
    · rw [if_neg hc] at h
      obtain ⟨j, hj1, hj2, hj3, hj4, hj5⟩ := ih (i + 1) v h
      refine ⟨j, by omega, by omega, hj3, ?_, hj5⟩
      intro k hk1 hk2
      rcases Nat.eq_or_lt_of_le hk1 with hk | hk
      · rw [← hk]
        exact hc
      · exact hj4 k hk hk2

/-- At its left endpoint a segment interpolates to exactly `s0`. -/
lemma segment_value_at_left (cfg : zip_speed_curve_config) (i : Nat) :
    segment_value cfg i (cp cfg (2 * i)) = cp cfg (2 * i + 1) := by
  unfold segment_value
  simp

/-- At its right endpoint a (positive-width) segment interpolates to
exactly `s1`: the division is exact. -/
lemma segment_value_at_right (cfg : zip_speed_curve_config) (i : Nat)
    (ht : cp cfg (2 * i) < cp cfg (2 * i + 2)) :
    segment_value cfg i (cp cfg (2 * i + 2)) = cp cfg (2 * i + 3) := by
  unfold segment_value
  rw [Int.mul_tdiv_cancel _ (by omega)]
  ring

/-- If two segments `j ≤ i` both contain `e` (under strictly increasing
times), both interpolations agree: either `j = i`, or `i = j + 1` and
`e` is their shared endpoint, where segment `j` interpolates exactly to
`s_{j+1}` and segment `j+1` starts at exactly `s_{j+1}`. -/
lemma segment_value_eq_of_double (cfg : zip_speed_curve_config)
    (hinc : times_strictly_increasing cfg) {e : Int} {j i : Nat}
    (hji : j ≤ i) (hi : i + 1 < num_points cfg)
    (hjseg : in_segment cfg e j) (hiseg : in_segment cfg e i) :
    segment_value cfg j e = segment_value cfg i e := by
  rcases Nat.eq_or_lt_of_le hji with h | h
  · rw [h]
  · have h1 : cp cfg (2 * j + 2) ≤ cp cfg (2 * i) := by
      rcases Nat.lt_or_ge (j + 1) i with h2 | h2
      · have h3 := cp_time_lt cfg hinc h2 (by omega)
        have h4 : 2 * (j + 1) = 2 * j + 2 := by ring
        rw [h4] at h3
        exact le_of_lt h3
      · have h3 : j + 1 = i := by omega
        rw [← h3]
        have h4 : 2 * (j + 1) = 2 * j + 2 := by ring
        rw [h4]
    have he1 : e = cp cfg (2 * j + 2) := le_antisymm hjseg.2 (le_trans h1 hiseg.1)
    have he2 : e = cp cfg (2 * i) := le_antisymm (he1 ▸ h1) hiseg.1
    have hieq : i = j + 1 := by
      by_contra hne
      have h2 : j + 1 < i := by omega
      have h3 := cp_time_lt cfg hinc h2 (by omega)
      have h4 : 2 * (j + 1) = 2 * j + 2 := by ring
      rw [h4] at h3
      omega
    subst hieq
    have htj : cp cfg (2 * j) < cp cfg (2 * j + 2) := by
      have h5 := hinc ⟨j, by omega⟩
      exact h5
    rw [he1, segment_value_at_right cfg j htj]
    have h6 : e = cp cfg (2 * (j + 1)) := he2
    calc cp cfg (2 * j + 3) = cp cfg (2 * (j + 1) + 1) := by
          have h7 : 2 * (j + 1) + 1 = 2 * j + 3 := by ring
          rw [h7]
      _ = segment_value cfg (j + 1) (cp cfg (2 * (j + 1))) :=
          (segment_value_at_left cfg (j + 1)).symm
      _ = segment_value cfg (j + 1) (cp cfg (2 * j + 2)) := by
          have h8 : 2 * (j + 1) = 2 * j + 2 := by ring
          rw [h8]

/-- In the interior of the curve, `calculate_speed` returns the
interpolation of ANY segment containing `e` (the loop returns the first
such segment, and at a shared endpoint adjacent segments agree). -/
lemma calculate_speed_in_segment (cfg : zip_speed_curve_config)
    (hinc : times_strictly_increasing cfg) {e : Int} {i : Nat}
    (hi : i + 1 < num_points cfg) (h0 : cp cfg 0 < e)
    (hl : e < cp cfg (2 * (num_points cfg - 1)))
    (hseg : in_segment cfg e i) :
    calculate_speed cfg e = segment_value cfg i e := by
  have hne : ¬ num_points cfg = 0 := by omega
  have hnl : ¬ e ≤ cp cfg 0 := not_le.mpr h0
  have hnr : ¬ cp cfg (2 * (num_points cfg - 1)) ≤ e := not_le.mpr hl
  have hsome : (seg_loop cfg e 0 (num_points cfg - 1)).isSome = true := by
    apply seg_loop_isSome cfg e (num_points cfg - 1) 0 (by omega) ?_ hl
    have h00 : 2 * 0 = 0 := by norm_num
    rw [h00]
    exact le_of_lt h0
  obtain ⟨v, hv⟩ := Option.isSome_iff_exists.mp hsome
  obtain ⟨j, hj0, hjlt, hjseg, hjfirst, hveq⟩ := seg_loop_first_match cfg e _ 0 v hv
  have hji : j ≤ i := by
    by_contra hgt
    exact hjfirst i (by omega) (by omega) hseg
  have hcv : calculate_speed cfg e = v := by
    unfold calculate_speed
    simp [hne, hnl, hnr, hv]
  rw [hcv, hveq]
  exact segment_value_eq_of_double cfg hinc hji hi hjseg hseg

/-- Interior interpolation: for a strictly-increasing table and any
elapsed time strictly between the first and last point times,
`calculate_speed` returns `s0 + (s1 - s0) * (e - t0) / (t1 - t0)`
(truncating toward zero) for any consecutive pair with `t0 ≤ e ≤ t1`;
and the spec's boundary examples on the curve
`[(0,50),(300,200),(1000,800)]` evaluate as stated. -/
theorem calculate_speed_interpolation_spec :
    (∀ cfg : zip_speed_curve_config, times_strictly_increasing cfg →
      ∀ (e : Int) (i : Nat), i + 1 < num_points cfg →
        cp cfg 0 < e → e < cp cfg (2 * (num_points cfg - 1)) →
        cp cfg (2 * i) ≤ e → e ≤ cp cfg (2 * i + 2) →
        calculate_speed cfg e =
          cp cfg (2 * i + 1) +
            ((cp cfg (2 * i + 3) - cp cfg (2 * i + 1)) * (e - cp cfg (2 * i))).tdiv
              (cp cfg (2 * i + 2) - cp cfg (2 * i))) ∧
      calculate_speed example_cfg 0 = 50 ∧ calculate_speed example_cfg 150 = 125 ∧
        calculate_speed example_cfg 300 = 200 ∧ calculate_speed example_cfg 1000 = 800 := by
  refine ⟨?_, by decide, by decide, by decide, by decide⟩
  intro cfg hinc e i hi h0 hl hs1 hs2
  exact calculate_speed_in_segment cfg hinc hi h0 hl ⟨hs1, hs2⟩

/-- Witness: on the example curve the interior point 150 lies in the
first segment and interpolates to 125. -/
theorem calculate_speed_interpolation_spec_witness :
    calculate_speed example_cfg 150 = 125 := by
  have h := calculate_speed_interpolation_spec.1 example_cfg (by decide) 150 0 (by decide)
    (by decide) (by decide) (by decide) (by decide)
  rw [h]
  decide

/-- The segment-search loop cannot fall through to the trailing
fallback return: whenever the elapsed time lies strictly between the
first and last point times, the loop finds an enclosing segment. -/
theorem seg_loop_fallback_unreachable (cfg : zip_speed_curve_config)
    (_hinc : times_strictly_increasing cfg) (_hn : 1 ≤ num_points cfg) (e : Int)
    (h0 : cp cfg 0 < e) (hl : e < cp cfg (2 * (num_points cfg - 1))) :
    (seg_loop cfg e 0 (num_points cfg - 1)).isSome = true := by
  apply seg_loop_isSome cfg e (num_points cfg - 1) 0 (by omega) ?_ hl
  have h00 : 2 * 0 = 0 := by norm_num
  rw [h00]
  exact le_of_lt h0

/-- Witness: on the example curve the loop finds a segment for
elapsed 150. -/
theorem seg_loop_fallback_unreachable_witness :
    (seg_loop example_cfg 150 0 (num_points example_cfg - 1)).isSome = true :=
  seg_loop_fallback_unreachable example_cfg (by decide) (by decide) 150 (by decide) (by decide)

/-- Instance of the strictly-increasing-times invariant at a plain
`Nat` index. -/
lemma hinc_at (cfg : zip_speed_curve_config) (hinc : times_strictly_increasing cfg)
    {k : Nat} (hk : k < num_points cfg - 1) :
    cp cfg (2 * k) < cp cfg (2 * k + 2) :=
  hinc ⟨k, hk⟩

/-- Instance of the non-decreasing-speeds condition at a plain `Nat`
index. -/
lemma hmono_at (cfg : zip_speed_curve_config) (hmono : speeds_nondecreasing cfg)
    {k : Nat} (hk : k < num_points cfg - 1) :
    cp cfg (2 * k + 1) ≤ cp cfg (2 * k + 3) :=
  hmono ⟨k, hk⟩

/-- On a non-decreasing segment, the interpolated value never drops
below the left speed. -/
lemma segment_value_lower (cfg : zip_speed_curve_config) (i : Nat) (e : Int)
    (ht : cp cfg (2 * i) < cp cfg (2 * i + 2))
    (hs : cp cfg (2 * i + 1) ≤ cp cfg (2 * i + 3))
    (he0 : cp cfg (2 * i) ≤ e) :
    cp cfg (2 * i + 1) ≤ segment_value cfg i e := by
  unfold segment_value
  have h := Int.tdiv_nonneg (mul_nonneg (by omega : (0:Int) ≤ cp cfg (2 * i + 3) - cp cfg (2 * i + 1))
    (by omega : (0:Int) ≤ e - cp cfg (2 * i)))
    (by omega : (0:Int) ≤ cp cfg (2 * i + 2) - cp cfg (2 * i))
  omega

/-- On a non-decreasing segment, the interpolated value never exceeds
the right speed. -/
lemma segment_value_upper (cfg : zip_speed_curve_config) (i : Nat) (e : Int)
    (ht : cp cfg (2 * i) < cp cfg (2 * i + 2))
    (hs : cp cfg (2 * i + 1) ≤ cp cfg (2 * i + 3))
    (he0 : cp cfg (2 * i) ≤ e) (he1 : e ≤ cp cfg (2 * i + 2)) :
    segment_value cfg i e ≤ cp cfg (2 * i + 3) := by
  unfold segment_value
  rw [Int.tdiv_eq_ediv (mul_nonneg (by omega) (by omega)) (by omega)]
  have h1 : (cp cfg (2 * i + 3) - cp cfg (2 * i + 1)) * (e - cp cfg (2 * i)) ≤
      (cp cfg (2 * i + 3) - cp cfg (2 * i + 1)) * (cp cfg (2 * i + 2) - cp cfg (2 * i)) :=
    mul_le_mul_of_nonneg_left (by omega) (by omega)
  have h2 := Int.ediv_le_ediv (by omega : (0:Int) < cp cfg (2 * i + 2) - cp cfg (2 * i)) h1
  rw [Int.mul_ediv_cancel _ (by omega)] at h2
  omega

/-- On a non-decreasing segment, interpolation is monotone in the
elapsed time. -/
lemma segment_value_mono (cfg : zip_speed_curve_config) (i : Nat)
    (ht : cp cfg (2 * i) < cp cfg (2 * i + 2))
    (hs : cp cfg (2 * i + 1) ≤ cp cfg (2 * i + 3))
    {e e' : Int} (he0 : cp cfg (2 * i) ≤ e) (hee : e ≤ e') :
    segment_value cfg i e ≤ segment_value cfg i e' := by
  unfold segment_value
  rw [Int.tdiv_eq_ediv (mul_nonneg (by omega) (by omega)) (by omega),
    Int.tdiv_eq_ediv (mul_nonneg (by omega) (by omega)) (by omega)]
  have h1 : (cp cfg (2 * i + 3) - cp cfg (2 * i + 1)) * (e - cp cfg (2 * i)) ≤
      (cp cfg (2 * i + 3) - cp cfg (2 * i + 1)) * (e' - cp cfg (2 * i)) :=
    mul_le_mul_of_nonneg_left (by omega) (by omega)
  have h2 := Int.ediv_le_ediv (by omega : (0:Int) < cp cfg (2 * i + 2) - cp cfg (2 * i)) h1
  omega

/-- Evaluation of `calculate_speed` in the clamp-low branch. -/
lemma calculate_speed_low (cfg : zip_speed_curve_config) (hne : num_points cfg ≠ 0)
    {e : Int} (he : e ≤ cp cfg 0) :
    calculate_speed cfg e = cp cfg 1 := by
  simp [calculate_speed, hne, he]

/-- Evaluation of `calculate_speed` in the clamp-high branch (under the
strictly-increasing invariant, so that the two clamp-branch guards
cannot disagree). -/
lemma calculate_speed_high (cfg : zip_speed_curve_config)
    (hinc : times_strictly_increasing cfg) (hne : num_points cfg ≠ 0)
    {e : Int} (he : cp cfg (2 * (num_points cfg - 1)) ≤ e) :
    calculate_speed cfg e = cp cfg (2 * (num_points cfg - 1) + 1) := by
  by_cases hfirst : e ≤ cp cfg 0
  · rcases Nat.lt_or_ge 1 (num_points cfg) with h2 | h2
    · have hlt : cp cfg (2 * 0) < cp cfg (2 * (num_points cfg - 1)) :=
        cp_time_lt cfg hinc (by omega) (by omega)
      rw [Nat.mul_zero] at hlt
      exact absurd hfirst (not_le.mpr (lt_of_lt_of_le hlt he))
    · have hone : num_points cfg = 1 := by omega
      simp [calculate_speed, hne, hfirst, hone]
  · simp [calculate_speed, hne, hfirst, he]

/-- One-step monotonicity of `calculate_speed` on a monotone curve:
the value at `e + 1` is at least the value at `e`, across all branch
boundaries. -/
lemma calculate_speed_step (cfg : zip_speed_curve_config)
    (hinc : times_strictly_increasing cfg) (hmono : speeds_nondecreasing cfg) (e : Int) :
    calculate_speed cfg e ≤ calculate_speed cfg (e + 1) := by
  by_cases hne : num_points cfg = 0
  · simp [calculate_speed, hne]
  · by_cases hA : e + 1 ≤ cp cfg 0
    · rw [calculate_speed_low cfg hne (by omega : e ≤ cp cfg 0), calculate_speed_low cfg hne hA]
    · by_cases hC : cp cfg (2 * (num_points cfg - 1)) ≤ e
      · rw [calculate_speed_high cfg hinc hne hC,
          calculate_speed_high cfg hinc hne (by omega : cp cfg (2 * (num_points cfg - 1)) ≤ e + 1)]
      · by_cases hB : e ≤ cp cfg 0
        · -- boundary step out of the clamp-low region: e = t_0
          have h1 := calculate_speed_low cfg hne hB
          have hn2 : 2 ≤ num_points cfg := by
            by_contra h
            have hone : num_points cfg = 1 := by omega
            rw [hone] at hC
            norm_num at hC
            omega
          by_cases hE : cp cfg (2 * (num_points cfg - 1)) ≤ e + 1
          · rw [h1, calculate_speed_high cfg hinc hne hE]
            have h2 := @cp_speed_le cfg hmono 0 (num_points cfg - 1) (by omega) (by omega)
            exact h2
          · have ht0 := @hinc_at cfg hinc 0 (by omega)
            have hs0 := @hmono_at cfg hmono 0 (by omega)
            have hseg : in_segment cfg (e + 1) 0 := by
              constructor
              · show cp cfg 0 ≤ e + 1
                omega
              · show e + 1 ≤ cp cfg 2
                have ht0' : cp cfg 0 < cp cfg 2 := ht0
                omega
            have h2 := @calculate_speed_in_segment cfg hinc (e + 1) 0 (by omega)
              (by omega : cp cfg 0 < e + 1) (not_le.mp hE) hseg
            rw [h1, h2]
            exact segment_value_lower cfg 0 (e + 1) ht0 hs0
              (by show cp cfg 0 ≤ e + 1; omega)
        · -- e is interior: use the segment the loop finds for e
          have h0e : cp cfg 0 < e := not_le.mp hB
          have hle : e < cp cfg (2 * (num_points cfg - 1)) := not_le.mp hC
          have hn2 : 2 ≤ num_points cfg := by
            by_contra h
            have hone : num_points cfg = 1 := by omega
            rw [hone] at hle
            norm_num at hle
            omega
          have hsome := seg_loop_isSome cfg e (num_points cfg - 1) 0 (by omega)
            (le_of_lt h0e) hle
          obtain ⟨v, hv⟩ := Option.isSome_iff_exists.mp hsome
          obtain ⟨j, hj0, hjlt, hjseg, hjfirst, hveq⟩ := seg_loop_first_match cfg e _ 0 v hv
          obtain ⟨hja, hjb⟩ := hjseg
          have hfe : calculate_speed cfg e = segment_value cfg j e := by
            have hcv : calculate_speed cfg e = v := by
              unfold calculate_speed
              simp [hne, hB, hC, hv]
            rw [hcv, hveq]
          have htj := @hinc_at cfg hinc j (by omega)
          have hsj := @hmono_at cfg hmono j (by omega)
          by_cases hE : cp cfg (2 * (num_points cfg - 1)) ≤ e + 1
          · rw [hfe, calculate_speed_high cfg hinc hne hE]
            have hup := segment_value_upper cfg j e htj hsj hja hjb
            have hch := @cp_speed_le cfg hmono (j + 1) (num_points cfg - 1) (by omega) (by omega)
            rw [(by omega : 2 * (j + 1) + 1 = 2 * j + 3)] at hch
            omega
          · have hl1 : e + 1 < cp cfg (2 * (num_points cfg - 1)) := not_le.mp hE
            by_cases hD : e + 1 ≤ cp cfg (2 * j + 2)
            · -- e and e + 1 share segment j
              have hseg1 : in_segment cfg (e + 1) j := ⟨by omega, hD⟩
              have hfe1 := @calculate_speed_in_segment cfg hinc (e + 1) j (by omega)
                (by omega : cp cfg 0 < e + 1) hl1 hseg1
              rw [hfe, hfe1]
              exact segment_value_mono cfg j htj hsj hja (by omega)
            · -- e sits exactly on the right endpoint of segment j
              have heb : e = cp cfg (2 * j + 2) := by omega
              have hfe2 : calculate_speed cfg e = cp cfg (2 * j + 3) := by
                rw [hfe, heb, segment_value_at_right cfg j htj]
              have hsome1 := seg_loop_isSome cfg (e + 1) (num_points cfg - 1) 0 (by omega)
                (by show cp cfg 0 ≤ e + 1; omega) hl1
              obtain ⟨w, hw⟩ := Option.isSome_iff_exists.mp hsome1
              obtain ⟨j', hj'0, hj'lt, hj'seg, hj'first, hweq⟩ :=
                seg_loop_first_match cfg (e + 1) _ 0 w hw
              obtain ⟨hj'a, hj'b⟩ := hj'seg
              have hfw : calculate_speed cfg (e + 1) = segment_value cfg j' (e + 1) := by
                have hB1 : ¬ (e + 1 ≤ cp cfg 0) := by omega
                have hcv : calculate_speed cfg (e + 1) = w := by
                  unfold calculate_speed
                  simp [hne, hB1, hE, hw]
                rw [hcv, hweq]
              have htj' := @hinc_at cfg hinc j' (by omega)
              have hsj' := @hmono_at cfg hmono j' (by omega)
              have hlow := segment_value_lower cfg j' (e + 1) htj' hsj' hj'a
              have hjj : j + 1 ≤ j' := by
                by_contra hcon
                have hj'j : j' ≤ j := by omega
                have hlt2 : cp cfg (2 * j' + 2) ≤ cp cfg (2 * j + 2) := by
                  rcases Nat.eq_or_lt_of_le hj'j with hh | hh
                  · rw [hh]
                  · have h3 := @cp_time_lt cfg hinc (j' + 1) (j + 1) (by omega) (by omega)
                    rw [(by omega : 2 * (j' + 1) = 2 * j' + 2),
                      (by omega : 2 * (j + 1) = 2 * j + 2)] at h3
                    exact le_of_lt h3
                omega
              have hch := @cp_speed_le cfg hmono (j + 1) j' hjj (by omega)
              rw [(by omega : 2 * (j + 1) + 1 = 2 * j + 3)] at hch
              rw [hfe2, hfw]
              omega

/-- Monotone interpolation on a monotone curve: whenever the curve's
times are strictly increasing and its speeds are non-decreasing,
`calculate_speed` is a non-decreasing function of the elapsed time,
including across clamp and segment boundaries. -/
theorem calculate_speed_monotone_spec (cfg : zip_speed_curve_config)
    (hinc : times_strictly_increasing cfg) (hmono : speeds_nondecreasing cfg)
    (e e' : Int) (hee : e ≤ e') :
    calculate_speed cfg e ≤ calculate_speed cfg e' := by
  have key : ∀ (k : Nat) (a : Int), calculate_speed cfg a ≤ calculate_speed cfg (a + k) := by
    intro k
    induction k with
    | zero => intro a; simp
    | succ m ih =>
      intro a
      have h1 := ih a
      have h2 := calculate_speed_step cfg hinc hmono (a + (m : Int))
      have h3 : a + (m : Int) + 1 = a + ((m + 1 : Nat) : Int) := by push_cast; ring
      rw [h3] at h2
      exact le_trans h1 h2
  have h3 := key (e' - e).toNat e
  have h4 : e + ((e' - e).toNat : Int) = e' := by omega
  rw [h4] at h3
  exact h3

/-- Witness: on the (monotone) example curve, the speed at 100 is at
most the speed at 400. -/
theorem calculate_speed_monotone_spec_witness :
    calculate_speed example_cfg 100 ≤ calculate_speed example_cfg 400 :=
  calculate_speed_monotone_spec example_cfg (by decide) (by decide) 100 400 (by decide)
